import Mathlib

/-!
Verification of the Encuentra24 housing scraper (src/scraper.py) against its
natural-language specification.

Strings are modelled as lists of characters (`Str`).  Each Python helper of
the scraper is translated into a Lean function of the same name; fetch
results are modelled as `Option` values (a `none` stands for a transport or
parse failure).  The unbounded `while` loop of `get_listing_urls` is given an
explicit fuel parameter; every theorem about it either holds for all fuel or
assumes the fuel covers the pages the hypotheses mention.
-/

set_option maxRecDepth 20000

/-- Character-list strings, the carrier for all text handled by the scraper. -/
abbrev Str := List Char

/-- Python `s.startswith(pre)` on character lists. -/
def startswith : Str → Str → Bool
  | [], _ => true
  | _ :: _, [] => false
  | p :: ps, c :: cs => p = c && startswith ps cs

/-- Python `needle in hay` (substring containment) on character lists. -/
def containsSub (needle : Str) : Str → Bool
  | [] => needle.isEmpty
  | c :: rest => startswith needle (c :: rest) || containsSub needle rest

/-- scraper.py line 16: `BASE_URL = "https://www.encuentra24.com"`. -/
def BASE_URL : Str := "https://www.encuentra24.com".data

/-- scraper.py lines 21-25: prepend `BASE_URL` unless the href already
starts with "http". -/
def make_absolute_url (href : Str) : Str :=
  if startswith "http".data href then href else BASE_URL ++ href

theorem startswith_http_base_append (href : Str) :
    startswith "http".data (BASE_URL ++ href) = true := rfl

/-- Python `url.rstrip("/")`: drop every trailing slash. -/
def rstrip_slash (s : Str) : Str := (s.reverse.dropWhile (fun c => c = '/')).reverse

/-- Python `s.split("/")`: split on every slash; the result is never empty
and `split_slash [] = [[]]`, matching CPython. -/
def split_slash : Str → List Str
  | [] => [[]]
  | c :: rest =>
    if c = '/' then [] :: split_slash rest
    else
      match split_slash rest with
      | s :: ss => (c :: s) :: ss
      | [] => [[c]]

/-- scraper.py line 197: `external_id = url.rstrip("/").split("/")[-1]`. -/
def external_id (url : Str) : Str := (split_slash (rstrip_slash url)).getLastD []

theorem split_slash_cons_slash (rest : Str) :
    split_slash ('/' :: rest) = [] :: split_slash rest := by
  simp [split_slash]

theorem split_slash_cons_ne (c : Char) (rest : Str) (hc : ¬ c = '/') :
    split_slash (c :: rest) =
      match split_slash rest with
      | s :: ss => (c :: s) :: ss
      | [] => [[c]] := by
  simp [split_slash, hc]

theorem split_slash_ne_nil (s : Str) : split_slash s ≠ [] := by
  cases s with
  | nil => simp [split_slash]
  | cons c rest =>
    simp only [split_slash]
    split
    · simp
    · split <;> simp

theorem split_slash_singleton_of_no_slash (s : Str) (h : '/' ∉ s) :
    split_slash s = [s] := by
  induction s with
  | nil => rfl
  | cons c rest ih =>
    have hc : ¬ c = '/' := by
      intro hc; exact h (by simp [hc])
    have hrest : '/' ∉ rest := by
      intro hm; exact h (List.mem_cons_of_mem _ hm)
    simp [split_slash, hc, ih hrest]

theorem split_slash_length_ge_two_of_slash (s : Str) (h : '/' ∈ s) :
    2 ≤ (split_slash s).length := by
  induction s with
  | nil => simp at h
  | cons c rest ih =>
    by_cases hc : c = '/'
    · have h1 := split_slash_ne_nil rest
      subst hc
      rw [split_slash_cons_slash]
      have : 1 ≤ (split_slash rest).length := by
        cases hsplit : split_slash rest with
        | nil => exact absurd hsplit h1
        | cons a l => simp
      simp only [List.length_cons]
      omega
    · have hrest : '/' ∈ rest := by
        rcases List.mem_cons.mp h with h' | h'
        · exact absurd h'.symm hc
        · exact h'
      have hlen := ih hrest
      rw [split_slash_cons_ne c rest hc]
      cases hsplit : split_slash rest with
      | nil => exact absurd hsplit (split_slash_ne_nil rest)
      | cons a l =>
        rw [hsplit] at hlen
        simp only [List.length_cons] at hlen ⊢
        omega

theorem getLastD_last_segment (s : Str) :
    '/' ∉ (split_slash s).getLastD [] ∧
      ∃ pre, s = pre ++ (split_slash s).getLastD [] ∧
        (pre = [] ∨ pre.getLast? = some '/') := by
  induction s with
  | nil => exact ⟨by simp [split_slash], [], by simp [split_slash]⟩
  | cons c rest ih =>
    obtain ⟨hns, pre, hpre, hend⟩ := ih
    by_cases hc : c = '/'
    · subst hc
      have h1 : split_slash rest ≠ [] := split_slash_ne_nil rest
      have hL : (split_slash ('/' :: rest)).getLastD [] = (split_slash rest).getLastD [] := by
        simp only [split_slash, if_pos rfl]
        cases hsplit : split_slash rest with
        | nil => exact absurd hsplit h1
        | cons a l => simp [List.getLastD_cons]
      refine ⟨by rw [hL]; exact hns, '/' :: pre, ?_, ?_⟩
      · rw [hL]; simpa using hpre
      · right
        rcases hend with h | h
        · subst h; simp
        · cases pre with
          | nil => simp
          | cons a l => simpa [List.getLast?_cons] using h
    · by_cases hs : '/' ∈ rest
      · have h2 := split_slash_length_ge_two_of_slash rest hs
        have hL : (split_slash (c :: rest)).getLastD [] = (split_slash rest).getLastD [] := by
          simp only [split_slash, if_neg hc]
          cases hsplit : split_slash rest with
          | nil => exact absurd hsplit (split_slash_ne_nil rest)
          | cons a l =>
            rw [hsplit] at h2
            cases l with
            | nil => simp at h2
            | cons b l' => simp [List.getLastD_cons]
        have hpre' : pre ≠ [] := by
          intro h0
          subst h0
          simp only [List.nil_append] at hpre
          exact hns (hpre ▸ hs)
        refine ⟨by rw [hL]; exact hns, c :: pre, ?_, ?_⟩
        · rw [hL]; simpa using hpre
        · right
          rcases hend with h | h
          · exact absurd h hpre'
          · cases pre with
            | nil => exact absurd rfl hpre'
            | cons a l => simpa [List.getLast?_cons] using h
      · have hall : '/' ∉ c :: rest := by
          intro hm
          rcases List.mem_cons.mp hm with h' | h'
          · exact hc h'.symm
          · exact hs h'
        rw [split_slash_singleton_of_no_slash _ hall]
        exact ⟨hall, [], by simp⟩

theorem rstrip_slash_mem (url : Str) (c : Char) (hc : c ≠ '/') (hm : c ∈ url) :
    c ∈ rstrip_slash url := by
  unfold rstrip_slash
  rw [List.mem_reverse]
  have h1 : url.reverse = (url.reverse.takeWhile (fun x => x = '/')) ++
      (url.reverse.dropWhile (fun x => x = '/')) := (List.takeWhile_append_dropWhile _ _).symm
  have hmr : c ∈ url.reverse := List.mem_reverse.mpr hm
  rw [h1] at hmr
  rcases List.mem_append.mp hmr with h | h
  · exact absurd (by simpa using List.mem_takeWhile_imp h) hc
  · exact h

theorem rstrip_slash_last_ne (url : Str) :
    ∀ x, (rstrip_slash url).getLast? = some x → x ≠ '/' := by
  intro x hx
  unfold rstrip_slash at hx
  rw [List.getLast?_reverse] at hx
  have := List.head?_dropWhile_not (fun c => c = '/') url.reverse
  rw [hx] at this
  simpa using this

/-- The claim of C5 as stated is false: `"/"` is a non-empty url whose derived
`external_id` is empty. -/
theorem external_id_empty_on_slash :
    external_id "/".data = [] ∧ "/".data ≠ ([] : Str) := by
  constructor
  · rfl
  · simp

/-- C5 (amended): `external_id` is the final slash-separated segment of the
url with trailing slashes removed (it contains no slash and is a suffix
delimited by a slash or by the start of the stripped url), and it is
non-empty whenever the url contains at least one non-slash character (the
original claim's "non-empty for every non-empty url" fails on all-slash urls
such as "/"). -/
theorem external_id_spec (url : Str) :
    '/' ∉ external_id url ∧
      (∃ pre, rstrip_slash url = pre ++ external_id url ∧
        (pre = [] ∨ pre.getLast? = some '/')) ∧
      ((∃ c ∈ url, c ≠ '/') → external_id url ≠ []) := by
  obtain ⟨hns, pre, hpre, hend⟩ := getLastD_last_segment (rstrip_slash url)
  refine ⟨hns, ⟨pre, hpre, hend⟩, ?_⟩
  rintro ⟨c, hc, hcn⟩ hempty
  unfold external_id at hempty
  rw [hempty, List.append_nil] at hpre
  have hmem : c ∈ rstrip_slash url := rstrip_slash_mem url c hcn hc
  have hne : rstrip_slash url ≠ [] := by
    intro h0; rw [h0] at hmem; simp at hmem
  rcases hend with h | h
  · rw [hpre] at hne; exact hne h
  · rw [← hpre] at h
    exact rstrip_slash_last_ne url '/' h rfl

/-- Witness for C5 at the spec's own examples: a url ending in
"/casa-venta-123456" yields that segment, and ".../123456/" yields "123456". -/
theorem external_id_spec_witness :
    (∃ c ∈ "https://www.encuentra24.com/sv/casa-venta-123456/".data, c ≠ '/') ∧
      external_id "https://www.encuentra24.com/sv/casa-venta-123456/".data ≠ [] ∧
      external_id "https://www.encuentra24.com/sv/casa-venta-123456/".data =
        "casa-venta-123456".data := by
  refine ⟨by decide, ?_, by decide⟩
  exact (external_id_spec "https://www.encuentra24.com/sv/casa-venta-123456/".data).2.2
    (by decide)

/-- C10: `make_absolute_url` is idempotent, because its result always starts
with "http" (either the input already did, or `BASE_URL` — which starts with
"http" — was prepended). -/
theorem make_absolute_url_idempotent (href : Str) :
    make_absolute_url (make_absolute_url href) = make_absolute_url href := by
  unfold make_absolute_url
  by_cases h : startswith "http".data href = true
  · simp [h]
  · rw [if_neg h, if_pos (startswith_http_base_append href)]

/-!
## Document model

A parsed page (`soup`) is modelled by the results of exactly the node
queries scraper.py performs: each `select_one` becomes an `Option` field
holding the stripped text of the selected node (`none` = no node), and each
`select` becomes a list of per-node records.
-/

/-- One `.d3-property-insight__attribute` widget: stripped text of its title
node and of its value node (scraper.py lines 62-64). -/
structure InsightAttr where
  title : Option Str
  value : Option Str
  deriving DecidableEq

/-- The `use` node of a `.d3-ad-tile__details-item`, carrying an optional
`xlink:href` attribute (scraper.py lines 81-84). -/
structure TileUse where
  xlinkHref : Option Str
  deriving DecidableEq

/-- One `.d3-ad-tile__details-item` widget: its optional `use` node and the
stripped text of its optional `span` node (scraper.py lines 80-85). -/
structure TileItem where
  useEl : Option TileUse
  spanEl : Option Str
  deriving DecidableEq

/-- One `.d3-property-details__detail` row: the stripped text of its label
node (if any) and the row's full stripped text (scraper.py lines 100-105). -/
structure DetailRow where
  label : Option Str
  fullText : Str
  deriving DecidableEq

/-- One node of the gallery selector, with its `data-src` and `src`
attributes (scraper.py lines 117-118). -/
structure GalleryImg where
  dataSrc : Option Str
  src : Option Str
  deriving DecidableEq

/-- One element carrying `data-gallery` / `data-images` / `data-photo`
attributes (scraper.py lines 135-136). -/
structure DataEl where
  dataGallery : Option Str
  dataImages : Option Str
  dataPhoto : Option Str
  deriving DecidableEq

/-- A fetched and parsed listing page, restricted to the queries
scraper.py performs on it. -/
structure Doc where
  h1 : Option Str
  titleTag : Option Str
  estatePrice : Option Str
  d3Price : Option Str
  fullText : Str
  insightAttrs : List InsightAttr
  tileItems : List TileItem
  detailRows : List DetailRow
  galleryImgs : List GalleryImg
  scripts : List (Option Str)
  dataEls : List DataEl
  d3Location : Option Str
  dotLocation : Option Str
  aboutText : Option Str
  descContent : Option Str
  deriving DecidableEq

/-!
## Specs extractor (scraper.py lines 58-94)
-/

/-- The fixed key set of the SpecsMap. -/
inductive SpecKey where
  | area
  | bedrooms
  | bathrooms
  | parking
  | price_per_m2
  deriving DecidableEq

/-- The `specs` dictionary: one optional text value per fixed key. -/
structure SpecsMap where
  area : Option Str := none
  bedrooms : Option Str := none
  bathrooms : Option Str := none
  parking : Option Str := none
  price_per_m2 : Option Str := none
  deriving DecidableEq

def SpecsMap.get (m : SpecsMap) : SpecKey → Option Str
  | .area => m.area
  | .bedrooms => m.bedrooms
  | .bathrooms => m.bathrooms
  | .parking => m.parking
  | .price_per_m2 => m.price_per_m2

/-- Python `str.lower` restricted to the characters this scraper meets:
ASCII letters plus the accented Latin-1 uppercase letters of the Spanish
keyword sets. -/
def pyLowerChar (c : Char) : Char :=
  if 'A' ≤ c ∧ c ≤ 'Z' then Char.ofNat (c.toNat + 32)
  else if c = 'Á' then 'á'
  else if c = 'É' then 'é'
  else if c = 'Í' then 'í'
  else if c = 'Ó' then 'ó'
  else if c = 'Ú' then 'ú'
  else if c = 'Ñ' then 'ñ'
  else if c = 'Ü' then 'ü'
  else c

def pyLower (s : Str) : Str := s.map pyLowerChar

/-- scraper.py lines 68-77: the elif chain classifying an insight-attribute
label and storing the value under the matching key. -/
def classify_label (label value : Str) (specs : SpecsMap) : SpecsMap :=
  if containsSub "área".data label || containsSub "m²".data label ||
      containsSub "construida".data label then
    { specs with area := some value }
  else if containsSub "recámaras".data label || containsSub "habitaciones".data label then
    { specs with bedrooms := some value }
  else if containsSub "baños".data label then
    { specs with bathrooms := some value }
  else if containsSub "estacionamientos".data label || containsSub "parqueo".data label then
    { specs with parking := some value }
  else if containsSub "precio".data label then
    { specs with price_per_m2 := some value }
  else specs

/-- scraper.py lines 62-77: one iteration of the insight-attribute pass. -/
def pass1_item (specs : SpecsMap) (it : InsightAttr) : SpecsMap :=
  match it.title, it.value with
  | some t, some v => classify_label (pyLower t) v specs
  | _, _ => specs

/-- scraper.py lines 62-77: the whole insight-attribute pass. -/
def pass1 (specs : SpecsMap) : List InsightAttr → SpecsMap
  | [] => specs
  | it :: rest => pass1 (pass1_item specs it) rest

/-- scraper.py lines 80-93: one iteration of the icon-tile pass. -/
def pass2_item (specs : SpecsMap) (it : TileItem) : SpecsMap :=
  match it.useEl, it.spanEl with
  | some u, some v =>
    let href := u.xlinkHref.getD []
    if containsSub "#resize".data href then { specs with area := some v }
    else if containsSub "#bed".data href then { specs with bedrooms := some v }
    else if containsSub "#bath".data href then { specs with bathrooms := some v }
    else if containsSub "#parking".data href then { specs with parking := some v }
    else specs
  | _, _ => specs

/-- scraper.py lines 80-93: the whole icon-tile pass. -/
def pass2 (specs : SpecsMap) : List TileItem → SpecsMap
  | [] => specs
  | it :: rest => pass2 (pass2_item specs it) rest

/-- The SpecsMap after the insight-attribute pass only. -/
def parse_specs_pass1 (d : Doc) : SpecsMap := pass1 {} d.insightAttrs

/-- scraper.py lines 58-94: `parse_specs` runs the insight-attribute pass,
then the icon-tile pass over the same dictionary. -/
def parse_specs (d : Doc) : SpecsMap := pass2 (parse_specs_pass1 d) d.tileItems

/-- The value (if any) an icon-tile item writes for a given key: what the
item does to an empty dictionary. -/
def tile_writes (it : TileItem) (k : SpecKey) : Option Str := (pass2_item {} it).get k

/-- The last value the icon-tile pass writes for a key, if any. -/
def last_write (k : SpecKey) : List TileItem → Option Str
  | [] => none
  | it :: rest =>
    match last_write k rest with
    | some v => some v
    | none => tile_writes it k

theorem pass2_item_get (specs : SpecsMap) (it : TileItem) (k : SpecKey) :
    (pass2_item specs it).get k =
      match tile_writes it k with
      | some v => some v
      | none => specs.get k := by
  obtain ⟨u, v⟩ := it
  cases u with
  | none => cases k <;> rfl
  | some tu =>
    cases v with
    | none => cases k <;> rfl
    | some vtext =>
      simp only [pass2_item, tile_writes]
      split_ifs <;> cases k <;> rfl

theorem pass2_get (items : List TileItem) (specs : SpecsMap) (k : SpecKey) :
    (pass2 specs items).get k =
      match last_write k items with
      | some v => some v
      | none => specs.get k := by
  induction items generalizing specs with
  | nil => rfl
  | cons it rest ih =>
    simp only [pass2, last_write]
    rw [ih, pass2_item_get]
    cases last_write k rest <;> cases tile_writes it k <;> rfl

/-- The claim of C1 as stated is false: on a page exposing both widget
types for the same key, the icon-tile pass overwrites the value the
insight-attribute pass stored. -/
theorem parse_specs_pass2_overwrites_counterexample :
    (parse_specs_pass1 (Doc.mk none none none none []
        [InsightAttr.mk (some "Baños".data) (some "2".data)]
        [TileItem.mk (some (TileUse.mk (some "#bath-icon".data))) (some "99".data)]
        [] [] [] [] none none none none)).get SpecKey.bathrooms = some "2".data ∧
    (parse_specs (Doc.mk none none none none []
        [InsightAttr.mk (some "Baños".data) (some "2".data)]
        [TileItem.mk (some (TileUse.mk (some "#bath-icon".data))) (some "99".data)]
        [] [] [] [] none none none none)).get SpecKey.bathrooms = some "99".data ∧
    some "99".data ≠ some "2".data := by
  refine ⟨by decide, by decide, by decide⟩

/-- C1 (amended): the icon-tile pass merges with last-write-wins precedence
over the insight-attribute pass — pass 1's value for a key survives exactly
when no icon-tile item writes that key; when some icon-tile item writes the
key, the final value is the last such write (so the original claim's
"pass 2 never overwrites pass 1" is false whenever both passes write the
same key). -/
theorem parse_specs_pass_merge (d : Doc) (k : SpecKey) :
    (last_write k d.tileItems = none →
      (parse_specs d).get k = (parse_specs_pass1 d).get k) ∧
    (∀ v, last_write k d.tileItems = some v → (parse_specs d).get k = some v) := by
  constructor
  · intro h
    unfold parse_specs
    rw [pass2_get, h]
  · intro v h
    unfold parse_specs
    rw [pass2_get, h]

/-- Witness for C1 at the spec's own fixtures: an insight attribute "Área
construida"/"120 m²" with no area icon-tile keeps pass 1's value, and a
"#bed-icon" tile with value "3" sets bedrooms. -/
theorem parse_specs_pass_merge_witness :
    (last_write SpecKey.area [TileItem.mk (some (TileUse.mk (some "#bed-icon".data)))
        (some "3".data)] = none ∧
      (parse_specs (Doc.mk none none none none []
          [InsightAttr.mk (some "Área construida".data) (some "120 m²".data)]
          [TileItem.mk (some (TileUse.mk (some "#bed-icon".data))) (some "3".data)]
          [] [] [] [] none none none none)).get SpecKey.area =
        (parse_specs_pass1 (Doc.mk none none none none []
          [InsightAttr.mk (some "Área construida".data) (some "120 m²".data)]
          [TileItem.mk (some (TileUse.mk (some "#bed-icon".data))) (some "3".data)]
          [] [] [] [] none none none none)).get SpecKey.area) ∧
    (parse_specs_pass1 (Doc.mk none none none none []
        [InsightAttr.mk (some "Área construida".data) (some "120 m²".data)]
        [TileItem.mk (some (TileUse.mk (some "#bed-icon".data))) (some "3".data)]
        [] [] [] [] none none none none)).get SpecKey.area = some "120 m²".data := by
  refine ⟨⟨by decide, ?_⟩, by decide⟩
  exact (parse_specs_pass_merge (Doc.mk none none none none []
      [InsightAttr.mk (some "Área construida".data) (some "120 m²".data)]
      [TileItem.mk (some (TileUse.mk (some "#bed-icon".data))) (some "3".data)]
      [] [] [] [] none none none none) SpecKey.area).1 (by decide)

/-!
## Image harvester (scraper.py lines 112-152)
-/

/-- The single-quote character (spelled via its code point). -/
def squote : Char := Char.ofNat 39

/-- The literal prefix of the photo-host pattern,
`https://photos\.encuentra24\.com`. -/
def photo_host_lit : Str := "https://photos.encuentra24.com".data

/-- The character class terminating a match of the pattern
`r'https://photos\.encuentra24\.com[^"\'\\s]+'` (scraper.py line 129).
Inside this raw string `\\s` is a literal backslash followed by the letter
`s`, so the class excludes the double quote, the single quote, the
backslash, and the letter `s` — not whitespace. -/
def photo_stop_code (c : Char) : Bool :=
  c = '"' || c = squote || c = '\\' || c = 's'

/-- The terminating class of the method-3 pattern (scraper.py line 137),
which additionally excludes `]`. -/
def photo_stop_m3 (c : Char) : Bool := photo_stop_code c || c = ']'

/-- `re.findall` for the photo-host pattern: leftmost non-overlapping
matches of the literal prefix followed by a maximal non-empty run of
non-terminating characters; scanning resumes after each match.  Structural
on an explicit fuel, which the wrappers set to the text length (every step
consumes at least one character). -/
def findall_go (stop : Char → Bool) : Nat → Str → List Str
  | 0, _ => []
  | _ + 1, [] => []
  | fuel + 1, c :: rest =>
    if startswith photo_host_lit (c :: rest) then
      let tail := (c :: rest).drop photo_host_lit.length
      let run := tail.takeWhile (fun ch => !(stop ch))
      if run = [] then findall_go stop fuel rest
      else (photo_host_lit ++ run) :: findall_go stop fuel (tail.drop run.length)
    else findall_go stop fuel rest

/-- scraper.py line 129: the inline-script photo-URL scan. -/
def findall_photo (s : Str) : List Str := findall_go photo_stop_code s.length s

/-- scraper.py line 137: the data-blob photo-URL scan. -/
def findall_photo_m3 (s : Str) : List Str := findall_go photo_stop_m3 s.length s

/-- Python whitespace characters (the characters `\s` matches in ASCII). -/
def is_py_space (c : Char) : Bool :=
  c = ' ' || c = '\t' || c = '\n' || c = '\r' || c = Char.ofNat 11 || c = Char.ofNat 12

/-- Reference terminating class following the spec's words for the
inline-script pass: matches terminate at whitespace or quote characters. -/
def photo_stop_spec (c : Char) : Bool := c = '"' || c = squote || is_py_space c

/-- Reference scan following the spec's words (§4.4 method 2): photo-host
URL substrings whose path is terminated at whitespace or quote characters.
Kept to compare against `findall_photo`, the embedding of the code. -/
def findall_photo_specref (s : Str) : List Str := findall_go photo_stop_spec s.length s

/-- Python `a.get(x) or a.get(y) or ...` chains: first present non-empty
attribute value, else the fallback. -/
def or_attr (a : Option Str) (b : Str) : Str :=
  match a with
  | some s => if s = [] then b else s
  | none => b

/-- scraper.py lines 117-123: method 1, the gallery/attribute pass
(appends unconditionally, no duplicate check). -/
def pass_gallery (images : List Str) : List GalleryImg → List Str
  | [] => images
  | g :: rest =>
    let src := or_attr g.dataSrc (or_attr g.src [])
    let images2 :=
      if src ≠ [] ∧ containsSub "photos.encuentra24.com".data src then images ++ [src]
      else if src ≠ [] ∧ startswith "http".data src then images ++ [src]
      else images
    pass_gallery images2 rest

/-- scraper.py lines 130-132 and 138-140: append every found URL not
already present. -/
def append_new (images : List Str) : List Str → List Str
  | [] => images
  | u :: rest => if u ∈ images then append_new images rest else append_new (images ++ [u]) rest

/-- scraper.py lines 126-132: method 2, the inline-script pass
(`script.string or ""`). -/
def pass_scripts (images : List Str) : List (Option Str) → List Str
  | [] => images
  | sc :: rest => pass_scripts (append_new images (findall_photo (sc.getD []))) rest

/-- scraper.py lines 135-140: method 3, the data-blob pass. -/
def pass_data (images : List Str) : List DataEl → List Str
  | [] => images
  | el :: rest =>
    let data := or_attr el.dataGallery (or_attr el.dataImages (or_attr el.dataPhoto []))
    pass_data (append_new images (findall_photo_m3 data)) rest

/-- Python `img.replace` with the six-character pattern
backslash-u-0-0-2-F and replacement `/` (scraper.py line 147): leftmost
non-overlapping replacement. -/
def replace_u002F : Str → Str
  | '\\' :: 'u' :: '0' :: '0' :: '2' :: 'F' :: rest => '/' :: replace_u002F rest
  | c :: rest => c :: replace_u002F rest
  | [] => []

/-- Python `img.replace("\/", "/")` (backslash-slash to slash). -/
def replace_escaped_slash : Str → Str
  | '\\' :: '/' :: rest => '/' :: replace_escaped_slash rest
  | c :: rest => c :: replace_escaped_slash rest
  | [] => []

/-- scraper.py line 147: the escaped-slash normalization applied to each
harvested URL before the uniqueness check. -/
def clean_url (s : Str) : Str := replace_escaped_slash (replace_u002F s)

/-- scraper.py lines 143-150: normalize each collected URL and keep the
first occurrence of each normalized form. -/
def dedup_pass : List Str → List Str → List Str → List Str
  | [], _, acc => acc
  | img0 :: rest, seen, acc =>
    let img := clean_url img0
    if img ∈ seen then dedup_pass rest seen acc
    else dedup_pass rest (img :: seen) (acc ++ [img])

/-- The raw URL list collected by the three passes, in pass order. -/
def collect_images (d : Doc) : List Str :=
  pass_data (pass_scripts (pass_gallery [] d.galleryImgs) d.scripts) d.dataEls

/-- scraper.py lines 112-152: `parse_images`. -/
def parse_images (d : Doc) : List Str := dedup_pass (collect_images d) [] []

/-- Reference stable first-occurrence dedup (spec §4.4): keep an element
iff it was not kept before. -/
def keepFirstAux (seen : List Str) : List Str → List Str
  | [] => []
  | x :: xs => if x ∈ seen then keepFirstAux seen xs else x :: keepFirstAux (x :: seen) xs

/-- Reference order-preserving dedup following the spec's words. -/
def keepFirst (l : List Str) : List Str := keepFirstAux [] l

theorem dedup_pass_eq_keepFirstAux (imgs : List Str) :
    ∀ seen acc, dedup_pass imgs seen acc = acc ++ keepFirstAux seen (imgs.map clean_url) := by
  induction imgs with
  | nil => intro seen acc; simp [dedup_pass, keepFirstAux]
  | cons img0 rest ih =>
    intro seen acc
    simp only [dedup_pass, List.map_cons, keepFirstAux]
    by_cases h : clean_url img0 ∈ seen
    · simp only [if_pos h]
      exact ih seen acc
    · simp only [if_neg h]
      rw [ih (clean_url img0 :: seen) (acc ++ [clean_url img0])]
      simp

theorem keepFirstAux_nodup_notmem (l : List Str) :
    ∀ seen, (keepFirstAux seen l).Nodup ∧ ∀ x ∈ keepFirstAux seen l, x ∉ seen := by
  induction l with
  | nil => intro seen; simp [keepFirstAux]
  | cons x xs ih =>
    intro seen
    by_cases h : x ∈ seen
    · simpa [keepFirstAux, if_pos h] using ih seen
    · obtain ⟨hnd, hmem⟩ := ih (x :: seen)
      simp only [keepFirstAux, if_neg h]
      constructor
      · refine List.nodup_cons.mpr ⟨?_, hnd⟩
        intro hx
        exact hmem x hx (by simp)
      · intro y hy
        rcases List.mem_cons.mp hy with h' | h'
        · subst h'; exact h
        · intro hys
          exact hmem y h' (List.mem_cons_of_mem _ hys)

theorem keepFirstAux_fixed (l : List Str) :
    ∀ seen, l.Nodup → (∀ x ∈ l, x ∉ seen) → keepFirstAux seen l = l := by
  induction l with
  | nil => intro seen _ _; rfl
  | cons x xs ih =>
    intro seen hnd hns
    have hx : x ∉ seen := hns x (by simp)
    obtain ⟨hxxs, hxs⟩ := List.nodup_cons.mp hnd
    simp only [keepFirstAux, if_neg hx]
    rw [ih (x :: seen) hxs]
    intro y hy
    intro hmem
    rcases List.mem_cons.mp hmem with h' | h'
    · subst h'; exact hxxs hy
    · exact hns y (List.mem_cons_of_mem _ hy) h'

theorem map_clean_url_fixed (l : List Str) (h : ∀ x ∈ l, clean_url x = x) :
    l.map clean_url = l := by
  induction l with
  | nil => rfl
  | cons x xs ih =>
    simp only [List.map_cons]
    rw [h x (by simp), ih fun y hy => h y (List.mem_cons_of_mem _ hy)]

/-- The claim of C3 as stated is false: the escaped-slash normalization is
not idempotent (`\\/` collapses to `\/` in one pass and to `/` only in a
second), so a document can yield a result that still contains duplicates
after a further normalization, and re-running the normalize-then-dedup step
changes the sequence. -/
theorem parse_images_renormalization_counterexample :
    ¬ ((parse_images (Doc.mk none none none none [] [] [] []
        [GalleryImg.mk (some "https://photos.encuentra24.com\\\\/x".data) none,
         GalleryImg.mk (some "https://photos.encuentra24.com/x".data) none]
        [] [] none none none none)).map clean_url).Nodup ∧
    dedup_pass (parse_images (Doc.mk none none none none [] [] [] []
        [GalleryImg.mk (some "https://photos.encuentra24.com\\\\/x".data) none,
         GalleryImg.mk (some "https://photos.encuentra24.com/x".data) none]
        [] [] none none none none)) [] [] ≠
      parse_images (Doc.mk none none none none [] [] [] []
        [GalleryImg.mk (some "https://photos.encuentra24.com\\\\/x".data) none,
         GalleryImg.mk (some "https://photos.encuentra24.com/x".data) none]
        [] [] none none none none) := by
  refine ⟨by decide, by decide⟩

/-- C3 (amended): `parse_images` output has no duplicate by exact string
equality of the once-normalized URLs; it is the stable first-occurrence
dedup of the collected URLs' normalized forms (first occurrence wins and
fixes position); and re-running the normalize-then-dedup step returns the
same sequence whenever the single normalization pass fixes every element of
the output.  Unconditional idempotence — and duplicate-freeness after a
further normalization — fail, because the normalization itself is not
idempotent on URLs still containing a backslash (see the counterexample). -/
theorem parse_images_dedup_spec (d : Doc) :
    (parse_images d).Nodup ∧
    parse_images d = keepFirst ((collect_images d).map clean_url) ∧
    ((∀ u ∈ parse_images d, clean_url u = u) →
      dedup_pass (parse_images d) [] [] = parse_images d) := by
  have heq : parse_images d = keepFirstAux [] ((collect_images d).map clean_url) := by
    unfold parse_images
    rw [dedup_pass_eq_keepFirstAux]
    simp
  have hnd : (parse_images d).Nodup := by
    rw [heq]; exact (keepFirstAux_nodup_notmem _ []).1
  refine ⟨hnd, heq, ?_⟩
  intro h
  rw [dedup_pass_eq_keepFirstAux, map_clean_url_fixed _ h]
  rw [keepFirstAux_fixed _ [] hnd (by intro x _ hx; simp at hx)]
  simp

/-- Witness for C3 at the spec's §8 fixture: the three raw URLs collapse to
two, the output is clean-fixed, and the dedup step is idempotent there. -/
theorem parse_images_dedup_spec_witness :
    (∀ u ∈ parse_images (Doc.mk none none none none [] [] [] []
        [GalleryImg.mk (some "https://photos.encuentra24.com/a.jpg".data) none,
         GalleryImg.mk (some "https://photos.encuentra24.com\\/a.jpg".data) none,
         GalleryImg.mk (some "https://photos.encuentra24.com/b.jpg".data) none]
        [] [] none none none none), clean_url u = u) ∧
    dedup_pass (parse_images (Doc.mk none none none none [] [] [] []
        [GalleryImg.mk (some "https://photos.encuentra24.com/a.jpg".data) none,
         GalleryImg.mk (some "https://photos.encuentra24.com\\/a.jpg".data) none,
         GalleryImg.mk (some "https://photos.encuentra24.com/b.jpg".data) none]
        [] [] none none none none)) [] [] =
      parse_images (Doc.mk none none none none [] [] [] []
        [GalleryImg.mk (some "https://photos.encuentra24.com/a.jpg".data) none,
         GalleryImg.mk (some "https://photos.encuentra24.com\\/a.jpg".data) none,
         GalleryImg.mk (some "https://photos.encuentra24.com/b.jpg".data) none]
        [] [] none none none none) ∧
    parse_images (Doc.mk none none none none [] [] [] []
        [GalleryImg.mk (some "https://photos.encuentra24.com/a.jpg".data) none,
         GalleryImg.mk (some "https://photos.encuentra24.com\\/a.jpg".data) none,
         GalleryImg.mk (some "https://photos.encuentra24.com/b.jpg".data) none]
        [] [] none none none none) =
      ["https://photos.encuentra24.com/a.jpg".data,
       "https://photos.encuentra24.com/b.jpg".data] := by
  refine ⟨by decide, ?_, by decide⟩
  exact (parse_images_dedup_spec (Doc.mk none none none none [] [] [] []
      [GalleryImg.mk (some "https://photos.encuentra24.com/a.jpg".data) none,
       GalleryImg.mk (some "https://photos.encuentra24.com\\/a.jpg".data) none,
       GalleryImg.mk (some "https://photos.encuentra24.com/b.jpg".data) none]
      [] [] none none none none)).2.2 (by decide)

/-- C2 (a code bug): inside the raw string of scraper.py line 129 the
sequence `\\s` denotes a literal backslash plus the letter `s`, not the
whitespace class the spec describes.  Consequently the inline-script pass
truncates every photo URL at the first letter `s` in its path and runs
matches across whitespace, diverging from the spec's "terminated at
whitespace or quote characters" on concrete script texts. -/
theorem script_photo_regex_truncates :
    pass_scripts [] [some "var a = \"https://photos.encuentra24.com/casa.jpg\";".data] =
      ["https://photos.encuentra24.com/ca".data] ∧
    findall_photo_specref "var a = \"https://photos.encuentra24.com/casa.jpg\";".data =
      ["https://photos.encuentra24.com/casa.jpg".data] ∧
    pass_scripts [] [some "x https://photos.encuentra24.com/a1.jpg y".data] =
      ["https://photos.encuentra24.com/a1.jpg y".data] ∧
    findall_photo_specref "x https://photos.encuentra24.com/a1.jpg y".data =
      ["https://photos.encuentra24.com/a1.jpg".data] := by
  refine ⟨by decide, by decide, by decide, by decide⟩

/-!
## Detail table extractor (scraper.py lines 97-109) and price fallback
-/

/-- Python `s.strip()` (whitespace trim on both ends). -/
def py_strip (s : Str) : Str := ((s.dropWhile is_py_space).reverse.dropWhile is_py_space).reverse

/-- Python `s.replace(pat, "", 1)`: remove the first occurrence of `pat`
(no occurrence, or an empty `pat`, leaves `s` unchanged, matching CPython). -/
def remove_first (pat : Str) : Str → Str
  | [] => []
  | c :: rest =>
    if startswith pat (c :: rest) then (c :: rest).drop pat.length
    else c :: remove_first pat rest

/-- Python `d[k] = v` on an insertion-ordered dictionary modelled as an
association list: overwrite in place if the key exists, else append. -/
def dict_set (m : List (Str × Str)) (k v : Str) : List (Str × Str) :=
  if m.any (fun p => p.1 = k) then m.map (fun p => if p.1 = k then (p.1, v) else p)
  else m ++ [(k, v)]

/-- Python `d.get(k, dflt)`. -/
def dict_get (m : List (Str × Str)) (k dflt : Str) : Str :=
  match m.find? (fun p => p.1 = k) with
  | some p => p.2
  | none => dflt

/-- scraper.py lines 100-108: iterate detail rows; the value is the row's
full text with the first occurrence of the label removed, stripped; rows
with an empty label or empty residual value are skipped. -/
def parse_details_rows (details : List (Str × Str)) : List DetailRow → List (Str × Str)
  | [] => details
  | row :: rest =>
    match row.label with
    | none => parse_details_rows details rest
    | some label =>
      let value := py_strip (remove_first label row.fullText)
      if label ≠ [] ∧ value ≠ [] then parse_details_rows (dict_set details label value) rest
      else parse_details_rows details rest

/-- scraper.py lines 97-109: `parse_details`. -/
def parse_details (d : Doc) : List (Str × Str) := parse_details_rows [] d.detailRows

/-- The character class of the price pattern `\$[\d,\.]+`
(scraper.py line 170). -/
def isPriceChar (c : Char) : Bool := c.isDigit || c = ',' || c = '.'

/-- `re.search(r"\$[\d,\.]+", t)`: the leftmost match of a dollar sign
followed by a maximal non-empty run of digits / commas / dots. -/
def find_price : Str → Option Str
  | [] => none
  | c :: rest =>
    if c = '$' then
      if rest.takeWhile isPriceChar = [] then find_price rest
      else some ('$' :: rest.takeWhile isPriceChar)
    else find_price rest

/-- The price pattern matches `t` starting at index `k`. -/
def match_at (t : Str) (k : Nat) : Prop :=
  t[k]? = some '$' ∧ ∃ c, t[k + 1]? = some c ∧ isPriceChar c = true

theorem takeWhile_nil_head (p : Char → Bool) (l : Str) (h : l.takeWhile p = []) :
    ∀ c, l.head? = some c → p c = false := by
  intro c hc
  cases l with
  | nil => simp at hc
  | cons a l' =>
    simp only [List.head?_cons, Option.some.injEq] at hc
    by_cases hp : p a
    · rw [List.takeWhile_cons_of_pos hp] at h
      simp at h
    · rw [← hc]
      simpa using hp

theorem match_at_cons_succ (c : Char) (t : Str) (k : Nat) :
    match_at (c :: t) (k + 1) ↔ match_at t k := by
  unfold match_at
  rw [List.getElem?_cons_succ, List.getElem?_cons_succ]

theorem not_match_at_cons_zero_of_ne (c : Char) (t : Str) (hc : ¬ c = '$') :
    ¬ match_at (c :: t) 0 := by
  intro hm
  obtain ⟨h1, _⟩ := hm
  rw [List.getElem?_cons_zero] at h1
  exact hc (Option.some.injEq .. ▸ h1)

theorem not_match_at_cons_zero_of_run_nil (t : Str)
    (h : t.takeWhile isPriceChar = []) : ¬ match_at ('$' :: t) 0 := by
  intro hm
  obtain ⟨_, c, hc, hpc⟩ := hm
  rw [List.getElem?_cons_succ] at hc
  have hhead : t.head? = some c := by
    cases t with
    | nil => simp at hc
    | cons a l => simpa using hc
  rw [takeWhile_nil_head isPriceChar t h c hhead] at hpc
  exact Bool.false_ne_true hpc

theorem find_price_some_spec (t : Str) :
    ∀ m, find_price t = some m →
      ∃ pre suf run, t = pre ++ m ++ suf ∧ m = '$' :: run ∧ run ≠ [] ∧
        (∀ c ∈ run, isPriceChar c = true) ∧
        (∀ c, suf.head? = some c → isPriceChar c = false) ∧
        ∀ k, k < pre.length → ¬ match_at t k := by
  induction t with
  | nil => intro m h; simp [find_price] at h
  | cons c rest ih =>
    intro m h
    by_cases hc : c = '$'
    · subst hc
      by_cases hrun : rest.takeWhile isPriceChar = []
      · rw [find_price, if_pos rfl, if_pos hrun] at h
        obtain ⟨pre, suf, run, h1, h2, h3, h4, h5, h6⟩ := ih m h
        refine ⟨'$' :: pre, suf, run, by rw [h1]; rfl, h2, h3, h4, h5, ?_⟩
        intro k hk
        cases k with
        | zero => exact not_match_at_cons_zero_of_run_nil rest hrun
        | succ j =>
          rw [match_at_cons_succ]
          exact h6 j (by simpa using hk)
      · rw [find_price, if_pos rfl, if_neg hrun] at h
        have hm : m = '$' :: rest.takeWhile isPriceChar := (Option.some.injEq .. ▸ h).symm
        refine ⟨[], rest.dropWhile isPriceChar, rest.takeWhile isPriceChar, ?_, hm, hrun,
          ?_, ?_, ?_⟩
        · rw [hm]
          simp [List.takeWhile_append_dropWhile]
        · intro x hx
          exact List.mem_takeWhile_imp hx
        · intro x hx
          have := List.head?_dropWhile_not isPriceChar rest
          rw [hx] at this
          simpa using this
        · intro k hk
          simp at hk
    · rw [find_price, if_neg hc] at h
      obtain ⟨pre, suf, run, h1, h2, h3, h4, h5, h6⟩ := ih m h
      refine ⟨c :: pre, suf, run, by rw [h1]; rfl, h2, h3, h4, h5, ?_⟩
      intro k hk
      cases k with
      | zero => exact not_match_at_cons_zero_of_ne c rest hc
      | succ j =>
        rw [match_at_cons_succ]
        exact h6 j (by simpa using hk)

theorem find_price_none_spec (t : Str) (h : find_price t = none) :
    ∀ k, ¬ match_at t k := by
  induction t with
  | nil =>
    intro k hm
    obtain ⟨h1, _⟩ := hm
    simp at h1
  | cons c rest ih =>
    intro k
    by_cases hc : c = '$'
    · subst hc
      by_cases hrun : rest.takeWhile isPriceChar = []
      · rw [find_price, if_pos rfl, if_pos hrun] at h
        cases k with
        | zero => exact not_match_at_cons_zero_of_run_nil rest hrun
        | succ j =>
          rw [match_at_cons_succ]
          exact ih h j
      · rw [find_price, if_pos rfl, if_neg hrun] at h
        exact absurd h (by simp)
    · rw [find_price, if_neg hc] at h
      cases k with
      | zero => exact not_match_at_cons_zero_of_ne c rest hc
      | succ j =>
        rw [match_at_cons_succ]
        exact ih h j

/-!
## Listing assembler (scraper.py lines 155-214)
-/

/-- Python `el1 or el2` on `select_one` results (a found node is always
truthy). -/
def or_el (a b : Option Str) : Option Str :=
  match a with
  | some x => some x
  | none => b

/-- The output record of `scrape_listing` (scraper.py lines 199-211). -/
structure ListingRecord where
  title : Str
  price : Str
  location : Str
  published_date : Str
  listing_type : Str
  url : Str
  external_id : Str
  specs : SpecsMap
  details : List (Str × Str)
  description : Str
  images : List Str
  deriving DecidableEq

/-- The text produced by the selector-based price strategies
(scraper.py lines 166-167). -/
def price_selector (d : Doc) : Str := (or_el d.estatePrice d.d3Price).getD []

/-- scraper.py lines 155-214: `scrape_listing`.  The fetch+parse outcome is
the `Option Doc` argument; `none` models the `except` path returning None. -/
def scrape_listing (url listing_type : Str) (fetched : Option Doc) : Option ListingRecord :=
  match fetched with
  | none => none
  | some soup =>
    let title := (or_el soup.h1 soup.titleTag).getD []
    let price0 := price_selector soup
    let price := if price0 = [] then (find_price soup.fullText).getD [] else price0
    let specs := parse_specs soup
    let details := parse_details soup
    let location0 := dict_get details "Localización".data []
    let location :=
      if location0 = [] then (or_el soup.d3Location soup.dotLocation).getD [] else location0
    let published_date := dict_get details "Publicado".data []
    let description := (or_el soup.aboutText soup.descContent).getD []
    let images := parse_images soup
    some (ListingRecord.mk title price location published_date listing_type url
      (external_id url) specs details description images)

/-- C4: `scrape_listing` returns `none` exactly when the whole-document
fetch/parse failed, and on success the record is fully shaped, with its
specs, details and images the (total, possibly empty) extractor outputs;
no extraction step can fail for missing markup since every extractor is a
total function of the document. -/
theorem scrape_listing_total_shape (url lt : Str) (d : Doc) :
    (∀ o : Option Doc, (scrape_listing url lt o).isNone = o.isNone) ∧
    scrape_listing url lt none = none ∧
    ∃ r, scrape_listing url lt (some d) = some r ∧
      r.specs = parse_specs d ∧ r.details = parse_details d ∧ r.images = parse_images d ∧
      r.url = url ∧ r.listing_type = lt ∧ r.external_id = external_id url := by
  refine ⟨?_, rfl, ⟨_, rfl, rfl, rfl, rfl, rfl, rfl, rfl⟩⟩
  intro o
  cases o <;> rfl

/-- C9: when no selector-based price strategy yields non-empty text, the
price is the first match of the currency pattern over the page's full text
(and empty if there is none); `find_price`'s result is characterized as the
leftmost maximal match of a dollar sign followed by digits/commas/dots. -/
theorem price_regex_fallback (url lt : Str) (d : Doc) (h : price_selector d = []) :
    ∃ r, scrape_listing url lt (some d) = some r ∧
      r.price = (find_price d.fullText).getD [] ∧
      (∀ m, find_price d.fullText = some m →
        ∃ pre suf run, d.fullText = pre ++ m ++ suf ∧ m = '$' :: run ∧ run ≠ [] ∧
          (∀ c ∈ run, isPriceChar c = true) ∧
          (∀ c, suf.head? = some c → isPriceChar c = false) ∧
          ∀ k, k < pre.length → ¬ match_at d.fullText k) ∧
      (find_price d.fullText = none → ∀ k, ¬ match_at d.fullText k) := by
  refine ⟨_, rfl, ?_, fun m hm => find_price_some_spec _ m hm,
    fun hn => find_price_none_spec _ hn⟩
  show (if price_selector d = [] then (find_price d.fullText).getD [] else price_selector d) =
    (find_price d.fullText).getD []
  rw [if_pos h]

/-- Witness for C9: a page whose price selectors are absent and whose full
text contains "$1,200.50" gets exactly that token as its price. -/
theorem price_regex_fallback_witness :
    price_selector (Doc.mk none none none none "Precio: $1,200.50 hoy".data
        [] [] [] [] [] [] none none none none) = [] ∧
    (∃ r, scrape_listing "u".data "sale".data (some (Doc.mk none none none none
        "Precio: $1,200.50 hoy".data [] [] [] [] [] [] none none none none)) = some r ∧
      r.price = (find_price "Precio: $1,200.50 hoy".data).getD [] ∧ True) ∧
    (find_price "Precio: $1,200.50 hoy".data).getD [] = "$1,200.50".data := by
  refine ⟨by decide, ?_, by decide⟩
  obtain ⟨r, h1, h2, _⟩ := price_regex_fallback "u".data "sale".data
    (Doc.mk none none none none "Precio: $1,200.50 hoy".data
      [] [] [] [] [] [] none none none none) (by decide)
  exact ⟨r, h1, h2, trivial⟩

/-!
## Catalog paginator (scraper.py lines 28-55)

`fetch` maps a catalog-page URL to `none` (the `except` path: any fetch
exception) or `some links`, the `href` attributes of the selected listing
anchors (`none` inside the list = anchor without an href).  The loop gets
an explicit fuel; each theorem below either holds for every fuel or assumes
the fuel covers the pages its hypotheses mention.  Besides the collected
urls, the loop also returns the list of page numbers it fetched, so that
"never fetches page N+1" and "no retry" are expressible.
-/

/-- scraper.py line 33: page 1 is the base URL verbatim, page N>1 appends
`.N`. -/
def page_url (base : Str) (page : Nat) : Str :=
  if page = 1 then base else base ++ ".".data ++ (Nat.repr page).data

/-- scraper.py lines 42-49: the inner `for link in links` loop — skip
absent/empty hrefs, resolve to absolute, append if new, break once
`max_listings` is reached. -/
def add_links (maxL : Nat) : List (Option Str) → List Str → List Str
  | [], urls => urls
  | link :: rest, urls =>
    match link with
    | none => add_links maxL rest urls
    | some href =>
      if href = [] then add_links maxL rest urls
      else
        if make_absolute_url href ∈ urls then add_links maxL rest urls
        else
          if maxL ≤ (urls ++ [make_absolute_url href]).length then
            urls ++ [make_absolute_url href]
          else add_links maxL rest (urls ++ [make_absolute_url href])

/-- scraper.py lines 32-54: the `while len(urls) < max_listings` loop,
also recording the numbers of the pages it fetched. -/
def glu_loop (fetch : Str → Option (List (Option Str))) (base : Str) (maxL : Nat) :
    Nat → List Str → Nat → List Str × List Nat
  | 0, urls, _ => (urls, [])
  | fuel + 1, urls, page =>
    if urls.length < maxL then
      match fetch (page_url base page) with
      | none => (urls, [page])
      | some links =>
        if links = [] then (urls, [page])
        else
          let r := glu_loop fetch base maxL fuel (add_links maxL links urls) (page + 1)
          (r.1, page :: r.2)
    else (urls, [])

/-- scraper.py lines 28-55: `get_listing_urls` (first component), paired
with the fetched page numbers (instrumentation). -/
def get_listing_urls (fetch : Str → Option (List (Option Str))) (base : Str)
    (maxL fuel : Nat) : List Str × List Nat :=
  ((glu_loop fetch base maxL fuel [] 1).1.take maxL, (glu_loop fetch base maxL fuel [] 1).2)

/-- Reference accumulation of the urls gathered from `m` consecutive
catalog pages starting at page `p`. -/
def gather (fetch : Str → Option (List (Option Str))) (base : Str) (maxL : Nat) :
    Nat → Nat → List Str → List Str
  | _, 0, urls => urls
  | p, m + 1, urls =>
    gather fetch base maxL (p + 1) m (add_links maxL ((fetch (page_url base p)).getD []) urls)

theorem make_absolute_url_http (href : Str) :
    startswith "http".data (make_absolute_url href) = true := by
  unfold make_absolute_url
  by_cases h : startswith "http".data href = true
  · rw [if_pos h]; exact h
  · rw [if_neg h]; exact startswith_http_base_append href

theorem add_links_nodup (maxL : Nat) (links : List (Option Str)) :
    ∀ urls : List Str, urls.Nodup → (add_links maxL links urls).Nodup := by
  induction links with
  | nil => intro urls h; exact h
  | cons link rest ih =>
    intro urls h
    match link with
    | none => exact ih urls h
    | some href =>
      simp only [add_links]
      by_cases h0 : href = []
      · rw [if_pos h0]; exact ih urls h
      · rw [if_neg h0]
        by_cases h1 : make_absolute_url href ∈ urls
        · rw [if_pos h1]; exact ih urls h
        · rw [if_neg h1]
          have hnd : (urls ++ [make_absolute_url href]).Nodup := by
            rw [List.nodup_append]
            refine ⟨h, List.nodup_singleton _, ?_⟩
            intro a ha hb
            simp only [List.mem_singleton] at hb
            exact h1 (hb ▸ ha)
          by_cases h2 : maxL ≤ (urls ++ [make_absolute_url href]).length
          · rw [if_pos h2]; exact hnd
          · rw [if_neg h2]; exact ih _ hnd

theorem add_links_http (maxL : Nat) (links : List (Option Str)) :
    ∀ urls : List Str, (∀ u ∈ urls, startswith "http".data u = true) →
      ∀ u ∈ add_links maxL links urls, startswith "http".data u = true := by
  induction links with
  | nil => intro urls h; exact h
  | cons link rest ih =>
    intro urls h
    match link with
    | none => exact ih urls h
    | some href =>
      simp only [add_links]
      have hext : ∀ u ∈ urls ++ [make_absolute_url href], startswith "http".data u = true := by
        intro u hu
        rcases List.mem_append.mp hu with h' | h'
        · exact h u h'
        · simp only [List.mem_singleton] at h'
          subst h'
          exact make_absolute_url_http href
      by_cases h0 : href = []
      · rw [if_pos h0]; exact ih urls h
      · rw [if_neg h0]
        by_cases h1 : make_absolute_url href ∈ urls
        · rw [if_pos h1]; exact ih urls h
        · rw [if_neg h1]
          by_cases h2 : maxL ≤ (urls ++ [make_absolute_url href]).length
          · rw [if_pos h2]; exact hext
          · rw [if_neg h2]; exact ih _ hext

theorem add_links_length_le (maxL : Nat) (links : List (Option Str)) :
    ∀ urls : List Str, urls.length ≤ (add_links maxL links urls).length := by
  induction links with
  | nil => intro urls; exact le_refl _
  | cons link rest ih =>
    intro urls
    match link with
    | none => exact ih urls
    | some href =>
      simp only [add_links]
      by_cases h0 : href = []
      · rw [if_pos h0]; exact ih urls
      · rw [if_neg h0]
        by_cases h1 : make_absolute_url href ∈ urls
        · rw [if_pos h1]; exact ih urls
        · rw [if_neg h1]
          by_cases h2 : maxL ≤ (urls ++ [make_absolute_url href]).length
          · rw [if_pos h2]; simp
          · rw [if_neg h2]
            calc urls.length ≤ (urls ++ [make_absolute_url href]).length := by simp
              _ ≤ _ := ih _

theorem glu_loop_full (fetch : Str → Option (List (Option Str))) (base : Str) (maxL f : Nat)
    (urls : List Str) (page : Nat) (hlen : ¬ urls.length < maxL) :
    glu_loop fetch base maxL (f + 1) urls page = (urls, []) := by
  simp [glu_loop, hlen]

theorem glu_loop_stop_none (fetch : Str → Option (List (Option Str))) (base : Str)
    (maxL f : Nat) (urls : List Str) (page : Nat) (hlen : urls.length < maxL)
    (h : fetch (page_url base page) = none) :
    glu_loop fetch base maxL (f + 1) urls page = (urls, [page]) := by
  simp [glu_loop, hlen, h]

theorem glu_loop_stop_empty (fetch : Str → Option (List (Option Str))) (base : Str)
    (maxL f : Nat) (urls : List Str) (page : Nat) (hlen : urls.length < maxL)
    (h : fetch (page_url base page) = some []) :
    glu_loop fetch base maxL (f + 1) urls page = (urls, [page]) := by
  simp [glu_loop, hlen, h]

theorem glu_loop_step (fetch : Str → Option (List (Option Str))) (base : Str)
    (maxL f : Nat) (urls : List Str) (page : Nat) (links : List (Option Str))
    (hlen : urls.length < maxL) (h : fetch (page_url base page) = some links)
    (hl : links ≠ []) :
    glu_loop fetch base maxL (f + 1) urls page =
      ((glu_loop fetch base maxL f (add_links maxL links urls) (page + 1)).1,
        page :: (glu_loop fetch base maxL f (add_links maxL links urls) (page + 1)).2) := by
  simp [glu_loop, hlen, h, hl]

theorem glu_loop_inv (fetch : Str → Option (List (Option Str))) (base : Str) (maxL : Nat) :
    ∀ fuel (urls : List Str) (page : Nat), urls.Nodup →
      (∀ u ∈ urls, startswith "http".data u = true) →
      ((glu_loop fetch base maxL fuel urls page).1.Nodup ∧
        ∀ u ∈ (glu_loop fetch base maxL fuel urls page).1, startswith "http".data u = true) := by
  intro fuel
  induction fuel with
  | zero => intro urls page h1 h2; exact ⟨h1, h2⟩
  | succ f ih =>
    intro urls page h1 h2
    by_cases hlen : urls.length < maxL
    · cases hf : fetch (page_url base page) with
      | none => rw [glu_loop_stop_none fetch base maxL f urls page hlen hf]; exact ⟨h1, h2⟩
      | some links =>
        by_cases hl : links = []
        · subst hl
          rw [glu_loop_stop_empty fetch base maxL f urls page hlen hf]
          exact ⟨h1, h2⟩
        · rw [glu_loop_step fetch base maxL f urls page links hlen hf hl]
          exact ih (add_links maxL links urls) (page + 1)
            (add_links_nodup maxL links urls h1) (add_links_http maxL links urls h2)
    · rw [glu_loop_full fetch base maxL f urls page hlen]; exact ⟨h1, h2⟩

/-- C6: for every transport behavior, base url, target count and fuel, the
collected sequence has length at most the target count, contains no
duplicates, every element starts with "http", and an href that does not
already start with "http" gets the scheme+host prefix `BASE_URL`
prepended. -/
theorem get_listing_urls_invariants (fetch : Str → Option (List (Option Str)))
    (base : Str) (maxL fuel : Nat) :
    (get_listing_urls fetch base maxL fuel).1.length ≤ maxL ∧
    (get_listing_urls fetch base maxL fuel).1.Nodup ∧
    (∀ u ∈ (get_listing_urls fetch base maxL fuel).1, startswith "http".data u = true) ∧
    (∀ href, ¬ startswith "http".data href = true →
      make_absolute_url href = BASE_URL ++ href) := by
  obtain ⟨hnd, hhttp⟩ := glu_loop_inv fetch base maxL fuel [] 1 (List.nodup_nil) (by simp)
  refine ⟨?_, ?_, ?_, ?_⟩
  · exact le_trans (le_of_eq (List.length_take _ _)) (min_le_left _ _)
  · exact (List.take_sublist _ _).nodup hnd
  · intro u hu
    exact hhttp u ((List.take_sublist _ _).subset hu)
  · intro href h
    unfold make_absolute_url
    rw [if_neg h]

/-- Witness for C6 on a concrete two-page catalog: the path-only href "/x"
is collected as `BASE_URL ++ "/x"`, which starts with "http". -/
theorem get_listing_urls_invariants_witness :
    ("https://www.encuentra24.com/x".data ∈
      (get_listing_urls
        (fun u => if u = "http://b".data then some [some "/x".data]
          else (some [] : Option (List (Option Str))))
        "http://b".data 5 3).1) ∧
    startswith "http".data "https://www.encuentra24.com/x".data = true ∧
    ¬ startswith "http".data "/x".data = true ∧
    make_absolute_url "/x".data = BASE_URL ++ "/x".data := by
  refine ⟨by decide, ?_, by decide, ?_⟩
  · exact (get_listing_urls_invariants
      (fun u => if u = "http://b".data then some [some "/x".data]
        else (some [] : Option (List (Option Str))))
      "http://b".data 5 3).2.2.1 "https://www.encuentra24.com/x".data (by decide)
  · exact (get_listing_urls_invariants
      (fun u => if u = "http://b".data then some [some "/x".data]
        else (some [] : Option (List (Option Str))))
      "http://b".data 5 3).2.2.2 "/x".data (by decide)

theorem gather_length_mono (fetch : Str → Option (List (Option Str))) (base : Str)
    (maxL : Nat) : ∀ (m p : Nat) (urls : List Str),
      urls.length ≤ (gather fetch base maxL p m urls).length := by
  intro m
  induction m with
  | zero => intro p urls; exact le_refl _
  | succ m ih =>
    intro p urls
    calc urls.length
        ≤ (add_links maxL ((fetch (page_url base p)).getD []) urls).length :=
          add_links_length_le maxL _ urls
      _ ≤ _ := ih (p + 1) _

theorem glu_loop_run (fetch : Str → Option (List (Option Str))) (base : Str) (maxL : Nat) :
    ∀ (m fuel p : Nat) (urls : List Str),
      (∀ k, k < m → ∃ ls, fetch (page_url base (p + k)) = some ls ∧ ls ≠ []) →
      (gather fetch base maxL p m urls).length < maxL →
      (fetch (page_url base (p + m)) = none ∨ fetch (page_url base (p + m)) = some []) →
      m + 1 ≤ fuel →
      glu_loop fetch base maxL fuel urls p =
        (gather fetch base maxL p m urls, List.range' p (m + 1)) := by
  intro m
  induction m with
  | zero =>
    intro fuel p urls _ h2 h3 h4
    cases fuel with
    | zero => omega
    | succ f =>
      have hlen : urls.length < maxL := h2
      rcases h3 with h | h
      · rw [glu_loop_stop_none fetch base maxL f urls p hlen (by simpa using h)]
        simp [gather, List.range'_one]
      · rw [glu_loop_stop_empty fetch base maxL f urls p hlen (by simpa using h)]
        simp [gather, List.range'_one]
  | succ m ih =>
    intro fuel p urls h1 h2 h3 h4
    cases fuel with
    | zero => omega
    | succ f =>
      obtain ⟨ls, hls, hlne⟩ := h1 0 (by omega)
      rw [show p + 0 = p by omega] at hls
      have hgather : gather fetch base maxL p (m + 1) urls =
          gather fetch base maxL (p + 1) m (add_links maxL ls urls) := by
        simp [gather, hls]
      have hlen : urls.length < maxL := by
        have hmono := gather_length_mono fetch base maxL m (p + 1) (add_links maxL ls urls)
        have hadd := add_links_length_le maxL ls urls
        rw [hgather] at h2
        omega
      rw [glu_loop_step fetch base maxL f urls p ls hlen hls hlne]
      have hrec := ih f (p + 1) (add_links maxL ls urls) ?_ ?_ ?_ ?_
      · rw [hrec, hgather]
        simp [List.range'_succ]
      · intro k hk
        obtain ⟨ls', hls', hlne'⟩ := h1 (k + 1) (by omega)
        rw [show p + (k + 1) = p + 1 + k by omega] at hls'
        exact ⟨ls', hls', hlne'⟩
      · rw [← hgather]; exact h2
      · rw [show p + 1 + m = p + (m + 1) by omega]; exact h3
      · omega

/-- C7: if catalog page N yields zero listing anchors before the target
count is reached, the collected urls are exactly those gathered from pages
1..N-1 (in first-seen order), the fetched pages are exactly 1..N (so page
N+1 is never fetched), page 1 is addressed by the base url verbatim, and
page n>1 by the base url with the ".n" suffix. -/
theorem get_listing_urls_stops_on_empty_page (fetch : Str → Option (List (Option Str)))
    (base : Str) (maxL fuel N : Nat) (hN : 1 ≤ N)
    (h1 : ∀ k, 1 ≤ k → k < N → ∃ ls, fetch (page_url base k) = some ls ∧ ls ≠ [])
    (h2 : fetch (page_url base N) = some [])
    (h3 : (gather fetch base maxL 1 (N - 1) []).length < maxL)
    (h4 : N ≤ fuel) :
    (get_listing_urls fetch base maxL fuel).1 = gather fetch base maxL 1 (N - 1) [] ∧
    (get_listing_urls fetch base maxL fuel).2 = List.range' 1 N ∧
    (N + 1) ∉ (get_listing_urls fetch base maxL fuel).2 ∧
    page_url base 1 = base ∧
    (∀ n, 2 ≤ n → page_url base n = base ++ ".".data ++ (Nat.repr n).data) := by
  have hrun := glu_loop_run fetch base maxL (N - 1) fuel 1 [] ?_ h3 ?_ ?_
  · have hchain : (N - 1) + 1 = N := by omega
    refine ⟨?_, ?_, ?_, by simp [page_url], ?_⟩
    · simp only [get_listing_urls, hrun]
      exact List.take_of_length_le (le_of_lt h3)
    · simp only [get_listing_urls, hrun, hchain]
    · simp only [get_listing_urls, hrun, hchain]
      intro hmem
      have := List.mem_range'_1.mp hmem
      omega
    · intro n hn
      unfold page_url
      rw [if_neg (by omega)]
  · intro k hk
    exact h1 (1 + k) (by omega) (by omega)
  · rw [show 1 + (N - 1) = N by omega]
    exact Or.inr h2
  · omega

/-- C8: if fetching catalog page N raises a transport failure, the loop
stops there: the collected urls are exactly those gathered from pages
1..N-1, unchanged; the fetched pages are exactly 1..N, so the failed page
is fetched exactly once (no retry) and page N+1 is never attempted; no
error escapes (the function is total). -/
theorem get_listing_urls_stops_on_fetch_error (fetch : Str → Option (List (Option Str)))
    (base : Str) (maxL fuel N : Nat) (hN : 1 ≤ N)
    (h1 : ∀ k, 1 ≤ k → k < N → ∃ ls, fetch (page_url base k) = some ls ∧ ls ≠ [])
    (h2 : fetch (page_url base N) = none)
    (h3 : (gather fetch base maxL 1 (N - 1) []).length < maxL)
    (h4 : N ≤ fuel) :
    (get_listing_urls fetch base maxL fuel).1 = gather fetch base maxL 1 (N - 1) [] ∧
    (get_listing_urls fetch base maxL fuel).2 = List.range' 1 N ∧
    (get_listing_urls fetch base maxL fuel).2.count N = 1 ∧
    (N + 1) ∉ (get_listing_urls fetch base maxL fuel).2 := by
  have hrun := glu_loop_run fetch base maxL (N - 1) fuel 1 [] ?_ h3 ?_ ?_
  · have hchain : (N - 1) + 1 = N := by omega
    refine ⟨?_, ?_, ?_, ?_⟩
    · simp only [get_listing_urls, hrun]
      exact List.take_of_length_le (le_of_lt h3)
    · simp only [get_listing_urls, hrun, hchain]
    · simp only [get_listing_urls, hrun, hchain]
      exact List.count_eq_one_of_mem (List.nodup_range' 1 N) (List.mem_range'_1.mpr ⟨hN, by omega⟩)
    · simp only [get_listing_urls, hrun, hchain]
      intro hmem
      have := List.mem_range'_1.mp hmem
      omega
  · intro k hk
    exact h1 (1 + k) (by omega) (by omega)
  · rw [show 1 + (N - 1) = N by omega]
    exact Or.inl h2
  · omega

/-- A fake catalog: pages 1 and 2 carry anchors, page 3 carries none. -/
def fetch_empty_page3 : Str → Option (List (Option Str)) := fun u =>
  if u = "http://cat".data then some [some "/a".data, some "/b".data]
  else if u = "http://cat.2".data then some [some "/b".data, some "/c".data]
  else if u = "http://cat.3".data then some []
  else none

/-- Witness for C7 on the spec's §8 fixture: zero anchors on page 3 return
exactly the urls of pages 1-2 (the repeated "/b" kept once, first-seen),
and page 4 is never fetched. -/
theorem get_listing_urls_stops_on_empty_page_witness :
    (get_listing_urls fetch_empty_page3 "http://cat".data 50 3).1 =
      gather fetch_empty_page3 "http://cat".data 50 1 2 [] ∧
    (get_listing_urls fetch_empty_page3 "http://cat".data 50 3).2 = List.range' 1 3 ∧
    (4 : Nat) ∉ (get_listing_urls fetch_empty_page3 "http://cat".data 50 3).2 ∧
    (get_listing_urls fetch_empty_page3 "http://cat".data 50 3).1 =
      ["https://www.encuentra24.com/a".data, "https://www.encuentra24.com/b".data,
        "https://www.encuentra24.com/c".data] := by
  have h := get_listing_urls_stops_on_empty_page fetch_empty_page3 "http://cat".data 50 3 3
    (by omega)
    (by
      intro k hk1 hk2
      interval_cases k
      · exact ⟨[some "/a".data, some "/b".data], by decide, by decide⟩
      · exact ⟨[some "/b".data, some "/c".data], by decide, by decide⟩)
    (by decide) (by decide) (by omega)
  exact ⟨h.1, h.2.1, h.2.2.1, by decide⟩

/-- A fake catalog: pages 1 and 2 carry anchors, fetching page 3 fails. -/
def fetch_error_page3 : Str → Option (List (Option Str)) := fun u =>
  if u = "http://cat".data then some [some "/a".data, some "/b".data]
  else if u = "http://cat.2".data then some [some "/b".data, some "/c".data]
  else none

/-- Witness for C8: a transport failure on page 3 keeps the urls of pages
1-2 unchanged, fetches the failed page exactly once, and never tries
page 4. -/
theorem get_listing_urls_stops_on_fetch_error_witness :
    (get_listing_urls fetch_error_page3 "http://cat".data 50 3).1 =
      gather fetch_error_page3 "http://cat".data 50 1 2 [] ∧
    (get_listing_urls fetch_error_page3 "http://cat".data 50 3).2.count 3 = 1 ∧
    (4 : Nat) ∉ (get_listing_urls fetch_error_page3 "http://cat".data 50 3).2 ∧
    (get_listing_urls fetch_error_page3 "http://cat".data 50 3).1 =
      ["https://www.encuentra24.com/a".data, "https://www.encuentra24.com/b".data,
        "https://www.encuentra24.com/c".data] := by
  have h := get_listing_urls_stops_on_fetch_error fetch_error_page3 "http://cat".data 50 3 3
    (by omega)
    (by
      intro k hk1 hk2
      interval_cases k
      · exact ⟨[some "/a".data, some "/b".data], by decide, by decide⟩
      · exact ⟨[some "/b".data, some "/c".data], by decide, by decide⟩)
    (by decide) (by decide) (by omega)
  exact ⟨h.1, h.2.2.1, h.2.2.2, by decide⟩
